import Mathlib

/-!
Verification of the Postgres seed-data script
(`src/backend/fastapi_app/setup_postgres_seeddata.py`).

The script is a one-shot loader: it checks that the `items` table exists,
reads a JSON array of seed objects, inserts each object unless a row with
the same identifier already exists (the existence check runs in the same
session/transaction as the preceding inserts), commits the transaction
while absorbing a duplicate-key `IntegrityError`, and finally runs a
verification query ranking every row by the store's cosine-distance
operator against the lowest-identifier row's `embedding_ada002` field.

The embedding below is a shallow model of that script.  JSON object keys
are abstracted into the inductive `Key` (the three keys the script treats
specially, plus an indexed supply of other column names); numeric content
is modelled with `ℚ`.  Database effects are made explicit: a `DB` value
holds the catalog flag for the table and its committed rows, and
`seed_data` returns the final `DB`, the log events emitted, the exception
propagated to the caller (if any), and the rows fetched by the
verification query (when reached).
-/

/-- JSON object keys.  `kid`, `kembAda`, `kembNomic` stand for the keys
`id`, `embedding_ada002` and `embedding_nomic` which the script treats
specially; `other n` stands for any further scalar column name. -/
inductive Key where
  | kid
  | kembAda
  | kembNomic
  | other (n : Nat)
deriving DecidableEq

/-- A JSON value appearing in a seed object: a number, some other scalar
(abstracted by an index), or an array of numbers. -/
inductive JsonValue where
  | num (q : ℚ)
  | scal (s : Nat)
  | arr (xs : List ℚ)
deriving DecidableEq

/-- A value as stored in a table column; `vec` is the store's native
vector representation (what `np.array` passed through the driver becomes). -/
inductive Value where
  | num (q : ℚ)
  | scal (s : Nat)
  | vec (xs : List ℚ)
deriving DecidableEq

/-- Conversion of a bound parameter into the stored column value. -/
def toValue : JsonValue → Value
  | .num q => .num q
  | .scal s => .scal s
  | .arr xs => .vec xs

/-- One parsed element of the seed JSON array: its field-name/value pairs. -/
abbrev SeedObject := List (Key × JsonValue)

/-- A committed row of the `items` table: the identifier column, the
remaining scalar columns, and the two vector columns. -/
structure ItemRow where
  id : ℚ
  attrs : List (Key × Value)
  embedding_ada002 : List ℚ
  embedding_nomic : List ℚ
deriving DecidableEq

/-- State of the database as the script observes it: whether the `items`
table is present in the schema catalog, and its committed rows. -/
structure DB where
  tableExists : Bool
  rows : List ItemRow
deriving DecidableEq

/-- The Python exceptions the script can raise or absorb. -/
inductive PyError where
  | osError
  | jsonDecodeError
  | keyError
  | dataError
  | integrityError
  | attributeError
deriving DecidableEq

/-- Events sent to the `ragapp` logger. -/
inductive LogEvent where
  | tableMissing
  | seeded
  | testQueryHeader
  | queryRow (id d : ℚ)
deriving DecidableEq

/-- Log levels. -/
inductive LogLevel where
  | info
  | error
deriving DecidableEq

/-- The level each log event is emitted at. -/
def levelOf : LogEvent → LogLevel
  | .tableMissing => .error
  | .seeded => .info
  | .testQueryHeader => .info
  | .queryRow _ _ => .info

/-- The seed file as the script encounters it: unreadable (`open` raises
`OSError`), unparsable (`json.load` raises `JSONDecodeError`), or a parsed
JSON array of objects. -/
inductive SeedFile where
  | readError
  | decodeError
  | parsed (objs : List SeedObject)

/-- First value bound to a key in a seed object (Python `dict` lookup). -/
def lookupField : SeedObject → Key → Option JsonValue
  | [], _ => none
  | (k, v) :: rest, key => if k = key then some v else lookupField rest key

/-- `seed_data_object["id"]`: a `KeyError` when absent; the subsequent SQL
comparison against the integer `id` column fails when it is not a number. -/
def objId (obj : SeedObject) : Except PyError ℚ :=
  match lookupField obj .kid with
  | none => .error .keyError
  | some (.num i) => .ok i
  | some _ => .error .dataError

/-- True for the keys the script does not leave as plain scalar columns. -/
def isSpecialKey : Key → Bool
  | .kid => true
  | .kembAda => true
  | .kembNomic => true
  | .other _ => false

/-- The scalar columns of the insert: every field of the object other than
the identifier and the two embedding fields, converted to stored values. -/
def attrFields (obj : SeedObject) : List (Key × Value) :=
  (obj.filter (fun kv => !isSpecialKey kv.1)).map (fun kv => (kv.1, toValue kv.2))

/-- Building the row inserted for one object, after the identifier was
read: `attrs = {key: value ...}` with `attrs["embedding_ada002"]` and
`attrs["embedding_nomic"]` replaced by the converted arrays (`np.array`),
then `INSERT INTO items (<field names>) VALUES (<field values>)`.
A missing embedding key raises `KeyError`; a non-array embedding value
fails at the vector column. -/
def buildRow (i : ℚ) (obj : SeedObject) : Except PyError ItemRow :=
  match lookupField obj .kembAda with
  | none => .error .keyError
  | some (.arr e1) =>
    match lookupField obj .kembNomic with
    | none => .error .keyError
    | some (.arr e2) => .ok ⟨i, attrFields obj, e1, e2⟩
    | some _ => .error .dataError
  | some _ => .error .dataError

/-- The complete insert for one object: read its identifier, then build
the row.  (In the script the identifier is read for the existence check
before the row is built; `insertLoop` keeps that order.) -/
def toRow (obj : SeedObject) : Except PyError ItemRow :=
  match objId obj with
  | .error e => .error e
  | .ok i => buildRow i obj

/-- The per-object loop of `seed_data`.  `committed` is the table snapshot
the open transaction reads, `pending` the rows already inserted (but not
yet committed) by this session; the `SELECT ... WHERE id = :id` existence
check sees both, which is why an object is skipped when a row with its
identifier is either committed or pending. -/
def insertLoop (committed : List ItemRow) :
    List SeedObject → List ItemRow → Except PyError (List ItemRow)
  | [], pending => .ok pending
  | obj :: rest, pending =>
    match objId obj with
    | .error e => .error e
    | .ok i =>
      if (committed ++ pending).any (fun r => decide (r.id = i)) then
        insertLoop committed rest pending
      else
        match buildRow i obj with
        | .error e => .error e
        | .ok row => insertLoop committed rest (pending ++ [row])

/-- Ordering of table rows by the `id` column (`ORDER BY id`). -/
def idLE (a b : ItemRow) : Prop := a.id ≤ b.id

instance : DecidableRel idLE := fun a b => inferInstanceAs (Decidable (a.id ≤ b.id))

instance : IsTotal ItemRow idLE := ⟨fun a b => le_total a.id b.id⟩

instance : IsTrans ItemRow idLE := ⟨fun _ _ _ h1 h2 => le_trans h1 h2⟩

/-- Ordering of `(id, distance)` result rows by distance (`ORDER BY distance`). -/
def sndLE (a b : ℚ × ℚ) : Prop := a.2 ≤ b.2

instance : DecidableRel sndLE := fun a b => inferInstanceAs (Decidable (a.2 ≤ b.2))

instance : IsTotal (ℚ × ℚ) sndLE := ⟨fun a b => le_total a.2 b.2⟩

instance : IsTrans (ℚ × ℚ) sndLE := ⟨fun _ _ _ h1 h2 => le_trans h1 h2⟩

/-- `select(Item).order_by(Item.id).limit(1)`: the first row of the table
sorted by identifier, when the table is non-empty. -/
def firstItem (rows : List ItemRow) : Option ItemRow :=
  (rows.insertionSort idLE).head?

/-- The verification step of `seed_data`, parametrised by the store's
vector-distance operator `dist` (pgvector's `<=>`, which is outside this
repository; the claims about it are stated under the spec's assumptions
that it is non-negative and zero on identical vectors).  When the table is
empty, `first_item` is `None` and `first_item.embedding_ada002` raises
`AttributeError`; otherwise the query scores every row's
`embedding_ada002` against the first item's, orders by ascending distance,
and fetches at most two `(id, distance)` rows. -/
def verifyQuery (dist : List ℚ → List ℚ → ℚ) (rows : List ItemRow) :
    Except PyError (List (ℚ × ℚ)) :=
  match firstItem rows with
  | none => .error .attributeError
  | some fi =>
    .ok (((rows.map
      (fun r => (r.id, dist r.embedding_ada002 fi.embedding_ada002))).insertionSort
        sndLE).take 2)

/-- `session.commit()` of the insert transaction.  Modelled from the spec:
the store enforces identifier uniqueness at commit time; when some pending
row's identifier collides with a row committed meanwhile (the `oob` rows
inserted out-of-band plus the original snapshot), the commit raises
`IntegrityError` — absorbed by the script's `except ...: pass` — and the
transaction is rolled back as a whole, so no pending row lands.  Otherwise
all pending rows are appended. -/
def commitRows (committed oob pending : List ItemRow) : List ItemRow :=
  if pending.any (fun r => (committed ++ oob).any (fun t => decide (t.id = r.id))) then
    committed ++ oob
  else committed ++ oob ++ pending

/-- Result of one run of `seed_data`: the final database state, the log
events emitted, the exception propagated to the caller (`none` when the
coroutine returns normally), and the rows fetched by the verification
query when it was reached. -/
structure RunResult where
  db : DB
  logs : List LogEvent
  raised : Option PyError
  verifyRows : Option (List (ℚ × ℚ))
deriving DecidableEq

/-- Shallow model of `seed_data`.  `oob` are rows inserted out-of-band by
another session during the run: they are invisible to the existence
checks (the open transaction reads its snapshot plus its own writes) and
appear in the table at commit time.  Modelled from the spec: the store
enforces identifier uniqueness at commit time — a pending row whose
identifier collides with a committed one makes `session.commit()` raise
`IntegrityError`, which the script absorbs (`except ... : pass`), and the
aborted transaction is rolled back as a whole, so none of the pending
rows land.  All control flow around that collaborator is translated from
the script: missing table → error log and normal return; file/parse
errors and loop errors propagate; after commit the success message is
logged and the verification query runs. -/
def seed_data (dist : List ℚ → List ℚ → ℚ) (db : DB) (file : SeedFile)
    (oob : List ItemRow) : RunResult :=
  if db.tableExists then
    match file with
    | .readError => ⟨db, [], some .osError, none⟩
    | .decodeError => ⟨db, [], some .jsonDecodeError, none⟩
    | .parsed objs =>
      match insertLoop db.rows objs [] with
      | .error e => ⟨db, [], some e, none⟩
      | .ok pending =>
        let rows2 := commitRows db.rows oob pending
        match verifyQuery dist rows2 with
        | .error e => ⟨⟨true, rows2⟩, [.seeded], some e, none⟩
        | .ok vs =>
          ⟨⟨true, rows2⟩, [.seeded, .testQueryHeader] ++ vs.map (fun p => .queryRow p.1 p.2),
            none, some vs⟩
  else ⟨db, [.tableMissing], none, none⟩

/-- The parsed CLI arguments (string payloads abstracted by `Nat`). -/
structure Args where
  host : Option Nat
  username : Option Nat
  password : Option Nat
  database : Option Nat
  sslmode : Option Nat

/-- Which collaborator built the engine.  Modelled from the spec: the
factories `create_postgres_engine_from_env` / `create_postgres_engine_from_args`
are external collaborators; only the tag of the one chosen is recorded. -/
inductive EngineSource where
  | fromEnv
  | fromArgs
deriving DecidableEq

/-- Observable outcome of `main`: which engine factory was used, the
`seed_data` run, whether `engine.dispose()` was reached, and the process
exit status (0 on normal completion, nonzero for an uncaught exception). -/
structure MainResult where
  engineSource : EngineSource
  run : RunResult
  disposed : Bool
  exitCode : Nat
deriving DecidableEq

/-- Shallow model of `main`: choose the engine factory by whether `--host`
was given, run `seed_data`, and — only when it returns normally — dispose
the engine; an uncaught exception skips the `dispose` line and terminates
the process with a nonzero status. -/
def run_main (dist : List ℚ → List ℚ → ℚ) (args : Args) (db : DB) (file : SeedFile)
    (oob : List ItemRow) : MainResult :=
  let src := match args.host with
    | none => EngineSource.fromEnv
    | some _ => EngineSource.fromArgs
  let r := seed_data dist db file oob
  match r.raised with
  | none => ⟨src, r, true, 0⟩
  | some _ => ⟨src, r, false, 1⟩

/-- The rows produced by the objects that insert successfully. -/
def rowsOf (objs : List SeedObject) : List ItemRow :=
  objs.filterMap (fun o => (toRow o).toOption)

/-- The identifiers of the objects whose identifier field reads back. -/
def objIds (objs : List SeedObject) : List ℚ :=
  objs.filterMap (fun o => (objId o).toOption)

/-- A trivial stand-in distance for concrete evaluations: zero on equal
vectors, one otherwise. -/
def dist0 : List ℚ → List ℚ → ℚ := fun u v => if u = v then 0 else 1

/-- A well-formed seed object with identifier 1 and no extra columns. -/
def objA : SeedObject :=
  [(Key.kid, JsonValue.num 1), (Key.kembAda, JsonValue.arr [1]),
    (Key.kembNomic, JsonValue.arr [1])]

/-- A well-formed seed object with identifier 2. -/
def objB : SeedObject :=
  [(Key.kid, JsonValue.num 2), (Key.kembAda, JsonValue.arr [2]),
    (Key.kembNomic, JsonValue.arr [2])]

/-- A second object with identifier 1 but a different extra column. -/
def objA2 : SeedObject :=
  [(Key.kid, JsonValue.num 1), (Key.other 0, JsonValue.scal 7),
    (Key.kembAda, JsonValue.arr [3]), (Key.kembNomic, JsonValue.arr [3])]

/-- The row `objA` inserts. -/
def rowA : ItemRow := ⟨1, [], [1], [1]⟩

/-- A pre-existing row with identifier 9. -/
def rowZ : ItemRow := ⟨9, [], [5], [5]⟩

/-! ### Basic lemmas about the insert loop -/

theorem buildRow_id {i : ℚ} {obj : SeedObject} {r : ItemRow}
    (h : buildRow i obj = .ok r) : r.id = i := by
  unfold buildRow at h
  repeat' split at h
  all_goals try simp_all
  rw [← h]

theorem toRow_ok {obj : SeedObject} {r : ItemRow} (h : toRow obj = .ok r) :
    ∃ i, objId obj = .ok i ∧ buildRow i obj = .ok r ∧ r.id = i := by
  unfold toRow at h
  split at h
  all_goals try exact absurd h (by simp)
  exact ⟨_, by assumption, h, buildRow_id h⟩

theorem objIds_cons_ok {obj : SeedObject} {i : ℚ} (rest : List SeedObject)
    (hio : objId obj = .ok i) : objIds (obj :: rest) = i :: objIds rest := by
  simp [objIds, List.filterMap_cons, hio, Except.toOption]

theorem rowsOf_cons_ok {obj : SeedObject} {r : ItemRow} (rest : List SeedObject)
    (hr : toRow obj = .ok r) : rowsOf (obj :: rest) = r :: rowsOf rest := by
  simp [rowsOf, List.filterMap_cons, hr, Except.toOption]

theorem any_id_eq_false {l : List ItemRow} {i : ℚ} :
    l.any (fun r => decide (r.id = i)) = false ↔ i ∉ l.map ItemRow.id := by
  simp [List.any_eq_true, List.mem_map]

theorem rowsOf_length_of_wf (objs : List SeedObject)
    (hwf : ∀ o ∈ objs, ∃ r, toRow o = .ok r) :
    (rowsOf objs).length = objs.length := by
  induction objs with
  | nil => simp [rowsOf]
  | cons obj rest ih =>
    obtain ⟨r, hr⟩ := hwf obj (List.mem_cons_self _ _)
    rw [rowsOf_cons_ok rest hr]
    simp only [List.length_cons]
    rw [ih (fun o ho => hwf o (List.mem_cons_of_mem _ ho))]

theorem mem_rowsOf_id (objs : List SeedObject)
    (hwf : ∀ o ∈ objs, ∃ r, toRow o = .ok r) :
    ∀ i ∈ objIds objs, i ∈ (rowsOf objs).map ItemRow.id := by
  induction objs with
  | nil => simp [objIds]
  | cons obj rest ih =>
    obtain ⟨r, hr⟩ := hwf obj (List.mem_cons_self _ _)
    obtain ⟨j, hio, _, hrj⟩ := toRow_ok hr
    rw [objIds_cons_ok rest hio, rowsOf_cons_ok rest hr]
    intro i hi
    rcases List.mem_cons.mp hi with h | h
    · subst h
      simp [hrj]
    · have := ih (fun o ho => hwf o (List.mem_cons_of_mem _ ho)) i h
      simp only [List.map_cons, List.mem_cons]
      exact Or.inr this

theorem insertLoop_all_fresh (objs : List SeedObject) :
    ∀ (committed pending : List ItemRow),
    (∀ o ∈ objs, ∃ r, toRow o = .ok r) →
    (objIds objs).Nodup →
    (∀ i ∈ objIds objs, i ∉ (committed ++ pending).map ItemRow.id) →
    insertLoop committed objs pending = .ok (pending ++ rowsOf objs) := by
  induction objs with
  | nil => intro committed pending _ _ _; simp [insertLoop, rowsOf]
  | cons obj rest ih =>
    intro committed pending hwf hnd hfr
    obtain ⟨r, hr⟩ := hwf obj (List.mem_cons_self _ _)
    obtain ⟨i, hio, hib, hri⟩ := toRow_ok hr
    have hids := objIds_cons_ok rest hio
    have hfresh : i ∉ (committed ++ pending).map ItemRow.id := by
      refine hfr i ?_
      rw [hids]; exact List.mem_cons_self _ _
    have hnd' := hids ▸ hnd
    have hnotin : i ∉ objIds rest := (List.nodup_cons.mp hnd').1
    have hany : (committed ++ pending).any (fun r => decide (r.id = i)) = false :=
      any_id_eq_false.mpr hfresh
    simp only [insertLoop, hio, hany, Bool.false_eq_true, if_false, hib]
    rw [rowsOf_cons_ok rest hr]
    have step := ih committed (pending ++ [r])
      (fun o ho => hwf o (List.mem_cons_of_mem _ ho))
      (List.nodup_cons.mp hnd').2
      (by
        intro j hj
        have hj' : j ∈ objIds (obj :: rest) := by rw [hids]; exact List.mem_cons_of_mem _ hj
        have h1 := hfr j hj'
        have h2 : j ≠ r.id := by
          rw [hri]
          intro hcon
          exact hnotin (hcon ▸ hj)
        intro hmem
        rw [List.map_append] at hmem
        rcases List.mem_append.mp hmem with hc | hc
        · exact h1 (by rw [List.map_append]; exact List.mem_append.mpr (Or.inl hc))
        · rw [List.map_append] at hc
          rcases List.mem_append.mp hc with hc2 | hc2
          · exact h1 (by rw [List.map_append]; exact List.mem_append.mpr (Or.inr hc2))
          · simp only [List.map_cons, List.map_nil, List.mem_singleton] at hc2
            exact h2 hc2)
    rw [step]
    simp

theorem insertLoop_skip_all (objs : List SeedObject) :
    ∀ (committed pending : List ItemRow),
    (∀ o ∈ objs, ∃ i, objId o = .ok i ∧ i ∈ (committed ++ pending).map ItemRow.id) →
    insertLoop committed objs pending = .ok pending := by
  induction objs with
  | nil => intro committed pending _; simp [insertLoop]
  | cons obj rest ih =>
    intro committed pending hall
    obtain ⟨i, hio, hmem⟩ := hall obj (List.mem_cons_self _ _)
    have hany : (committed ++ pending).any (fun r => decide (r.id = i)) = true := by
      rcases List.mem_map.mp hmem with ⟨r, hr, hid⟩
      exact List.any_eq_true.mpr ⟨r, hr, by simp [hid]⟩
    simp only [insertLoop, hio, hany, if_true]
    exact ih committed pending (fun o ho => hall o (List.mem_cons_of_mem _ ho))

theorem objId_error {obj : SeedObject} {e : PyError} (h : objId obj = .error e) :
    e = .keyError ∨ e = .dataError := by
  unfold objId at h
  repeat' split at h
  all_goals simp_all

theorem buildRow_error {i : ℚ} {obj : SeedObject} {e : PyError}
    (h : buildRow i obj = .error e) : e = .keyError ∨ e = .dataError := by
  unfold buildRow at h
  repeat' split at h
  all_goals simp_all

theorem insertLoop_error (objs : List SeedObject) :
    ∀ (committed pending : List ItemRow) (e : PyError),
    insertLoop committed objs pending = .error e →
    e = .keyError ∨ e = .dataError := by
  induction objs with
  | nil => intro committed pending e h; simp [insertLoop] at h
  | cons obj rest ih =>
    intro committed pending e h
    rw [insertLoop] at h
    split at h
    · rename_i e2 heq
      injection h with h2
      subst h2
      exact objId_error heq
    · split at h
      · exact ih committed pending e h
      · split at h
        · rename_i e2 heq
          injection h with h2
          subst h2
          exact buildRow_error heq
        · exact ih committed _ e h

theorem insertLoop_ok_decomp (objs : List SeedObject) :
    ∀ (committed pending pending2 : List ItemRow),
    insertLoop committed objs pending = .ok pending2 →
    ∃ new, pending2 = pending ++ new ∧
      (∀ r ∈ new, r.id ∉ (committed ++ pending).map ItemRow.id) ∧
      (new.map ItemRow.id).Nodup := by
  induction objs with
  | nil =>
    intro committed pending pending2 h
    rw [insertLoop] at h
    injection h with h2
    exact ⟨[], by simp [h2.symm]⟩
  | cons obj rest ih =>
    intro committed pending pending2 h
    rw [insertLoop] at h
    split at h
    · exact absurd h (by simp)
    · rename_i i hio
      split at h
      · exact ih committed pending pending2 h
      · rename_i hany
        split at h
        · exact absurd h (by simp)
        · rename_i row hbr
          obtain ⟨new2, hdec, hfr2, hnd2⟩ := ih committed (pending ++ [row]) pending2 h
          have hrowid : row.id = i := buildRow_id hbr
          have hfreshrow : row.id ∉ (committed ++ pending).map ItemRow.id := by
            rw [hrowid]
            rw [Bool.not_eq_true] at hany
            exact any_id_eq_false.mp hany
          refine ⟨row :: new2, ?_, ?_, ?_⟩
          · rw [hdec]; simp
          · intro r hr
            rcases List.mem_cons.mp hr with h1 | h1
            · subst h1; exact hfreshrow
            · have := hfr2 r h1
              intro hcon
              refine this ?_
              rw [List.map_append] at hcon ⊢
              rcases List.mem_append.mp hcon with hc | hc
              · exact List.mem_append.mpr (Or.inl hc)
              · rw [List.map_append]
                exact List.mem_append.mpr (Or.inr (List.mem_append.mpr (Or.inl hc)))
          · simp only [List.map_cons, List.nodup_cons]
            refine ⟨?_, hnd2⟩
            intro hcon
            rcases List.mem_map.mp hcon with ⟨r, hr, hid⟩
            have := hfr2 r hr
            refine this ?_
            rw [List.map_append, List.map_append]
            refine List.mem_append.mpr (Or.inr (List.mem_append.mpr (Or.inr ?_)))
            simp [hid]

/-! ### Lemmas about sorting and the verification query -/

theorem insertionSort_head_rel {α : Type} (r : α → α → Prop) [DecidableRel r]
    [IsTotal α r] [IsTrans α r] (l : List α) (h : α) (t : List α)
    (heq : l.insertionSort r = h :: t) : ∀ x ∈ l, r h x := by
  intro x hx
  have hmem : x ∈ l.insertionSort r := (List.perm_insertionSort r l).mem_iff.mpr hx
  rw [heq] at hmem
  rcases List.mem_cons.mp hmem with h1 | h1
  · subst h1
    rcases IsTotal.total (r := r) x x with h2 | h2 <;> exact h2
  · have hs := List.sorted_insertionSort r l
    rw [heq] at hs
    exact List.rel_of_sorted_cons hs x h1

theorem insertionSort_ne_nil {α : Type} (r : α → α → Prop) [DecidableRel r]
    {l : List α} (h : l ≠ []) : l.insertionSort r ≠ [] := by
  intro hc
  apply h
  have hlen := (List.perm_insertionSort r l).length_eq
  rw [hc] at hlen
  exact List.length_eq_zero.mp hlen.symm

theorem verifyQuery_nil (dist : List ℚ → List ℚ → ℚ) :
    verifyQuery dist [] = .error .attributeError := rfl

theorem verifyQuery_error {dist : List ℚ → List ℚ → ℚ} {rows : List ItemRow}
    {e : PyError} (h : verifyQuery dist rows = .error e) : e = .attributeError := by
  unfold verifyQuery at h
  split at h
  · injection h with h2
    exact h2.symm
  · exact absurd h (by simp)

theorem verifyQuery_ok_of_ne_nil (dist : List ℚ → List ℚ → ℚ)
    {rows : List ItemRow} (h : rows ≠ []) :
    ∃ vs, verifyQuery dist rows = .ok vs := by
  unfold verifyQuery
  split
  · rename_i heq
    unfold firstItem at heq
    exact absurd (List.head?_eq_none_iff.mp heq) (insertionSort_ne_nil idLE h)
  · exact ⟨_, rfl⟩

theorem commitRows_decomp (committed oob pending : List ItemRow) :
    commitRows committed oob pending = committed ++ oob ∨
    commitRows committed oob pending = committed ++ oob ++ pending := by
  unfold commitRows
  split
  · exact Or.inl rfl
  · exact Or.inr rfl

/-! ### Lemmas about a whole `seed_data` run -/

theorem seed_data_tableMissing (dist : List ℚ → List ℚ → ℚ) (db : DB)
    (file : SeedFile) (oob : List ItemRow) (h : db.tableExists = false) :
    seed_data dist db file oob = ⟨db, [.tableMissing], none, none⟩ := by
  unfold seed_data
  rw [h]
  simp

theorem seed_data_parsed_ok (dist : List ℚ → List ℚ → ℚ) (db : DB)
    (objs : List SeedObject) (oob pending : List ItemRow)
    (h1 : db.tableExists = true) (h2 : insertLoop db.rows objs [] = .ok pending) :
    seed_data dist db (.parsed objs) oob =
      match verifyQuery dist (commitRows db.rows oob pending) with
      | .error e => ⟨⟨true, commitRows db.rows oob pending⟩, [.seeded], some e, none⟩
      | .ok vs =>
        ⟨⟨true, commitRows db.rows oob pending⟩,
          [.seeded, .testQueryHeader] ++ vs.map (fun p => .queryRow p.1 p.2),
          none, some vs⟩ := by
  simp only [seed_data, h1, if_true, h2]

theorem seed_data_parsed_error (dist : List ℚ → List ℚ → ℚ) (db : DB)
    (objs : List SeedObject) (oob : List ItemRow) (e : PyError)
    (h1 : db.tableExists = true) (h2 : insertLoop db.rows objs [] = .error e) :
    seed_data dist db (.parsed objs) oob = ⟨db, [], some e, none⟩ := by
  simp only [seed_data, h1, if_true, h2]

theorem commitRows_no_conflict {committed oob pending : List ItemRow}
    (h : pending.any
      (fun r => (committed ++ oob).any (fun t => decide (t.id = r.id))) = false) :
    ∀ r ∈ pending, r.id ∉ (committed ++ oob).map ItemRow.id := by
  intro r hr hmem
  rcases List.mem_map.mp hmem with ⟨t, ht, hid⟩
  have h2 : ¬ (pending.any
      (fun r => (committed ++ oob).any (fun t => decide (t.id = r.id))) = true) := by
    rw [h]; simp
  exact h2 (List.any_eq_true.mpr ⟨r, hr, List.any_eq_true.mpr ⟨t, ht, by simp [hid]⟩⟩)

theorem commitRows_of_fresh {committed oob pending : List ItemRow}
    (h : ∀ r ∈ pending, r.id ∉ (committed ++ oob).map ItemRow.id) :
    commitRows committed oob pending = committed ++ oob ++ pending := by
  unfold commitRows
  rw [if_neg]
  intro hc
  rcases List.any_eq_true.mp hc with ⟨r, hr, hin⟩
  rcases List.any_eq_true.mp hin with ⟨t, ht, hid⟩
  rw [decide_eq_true_eq] at hid
  exact h r hr (List.mem_map.mpr ⟨t, ht, hid⟩)

theorem commitRows_cases (committed oob pending : List ItemRow) :
    commitRows committed oob pending = committed ++ oob ∨
    (commitRows committed oob pending = committed ++ oob ++ pending ∧
      ∀ r ∈ pending, r.id ∉ (committed ++ oob).map ItemRow.id) := by
  by_cases hc : pending.any
      (fun r => (committed ++ oob).any (fun t => decide (t.id = r.id))) = true
  · left
    unfold commitRows
    rw [if_pos hc]
  · right
    have hcf : pending.any
        (fun r => (committed ++ oob).any (fun t => decide (t.id = r.id))) = false :=
      Bool.eq_false_iff.mpr hc
    exact ⟨by unfold commitRows; rw [if_neg hc], commitRows_no_conflict hcf⟩

theorem mem_objIds {objs : List SeedObject} {o : SeedObject} {i : ℚ}
    (ho : o ∈ objs) (hio : objId o = .ok i) : i ∈ objIds objs :=
  List.mem_filterMap.mpr ⟨o, ho, by rw [hio]; rfl⟩

theorem seed_data_readError (dist : List ℚ → List ℚ → ℚ) (db : DB)
    (oob : List ItemRow) (h : db.tableExists = true) :
    seed_data dist db .readError oob = ⟨db, [], some .osError, none⟩ := by
  simp only [seed_data, h, if_true]

theorem seed_data_decodeError (dist : List ℚ → List ℚ → ℚ) (db : DB)
    (oob : List ItemRow) (h : db.tableExists = true) :
    seed_data dist db .decodeError oob = ⟨db, [], some .jsonDecodeError, none⟩ := by
  simp only [seed_data, h, if_true]

theorem seed_data_db_of_ok (dist : List ℚ → List ℚ → ℚ) (db : DB)
    (objs : List SeedObject) (oob pending : List ItemRow)
    (h1 : db.tableExists = true) (h2 : insertLoop db.rows objs [] = .ok pending) :
    (seed_data dist db (.parsed objs) oob).db =
      ⟨true, commitRows db.rows oob pending⟩ := by
  rw [seed_data_parsed_ok dist db objs oob pending h1 h2]
  split <;> rfl

theorem seed_data_raised_of_verify_ok (dist : List ℚ → List ℚ → ℚ) (db : DB)
    (objs : List SeedObject) (oob pending : List ItemRow) (vs : List (ℚ × ℚ))
    (h1 : db.tableExists = true) (h2 : insertLoop db.rows objs [] = .ok pending)
    (h3 : verifyQuery dist (commitRows db.rows oob pending) = .ok vs) :
    (seed_data dist db (.parsed objs) oob).raised = none ∧
    (seed_data dist db (.parsed objs) oob).verifyRows = some vs := by
  rw [seed_data_parsed_ok dist db objs oob pending h1 h2]
  simp only [h3]
  exact ⟨trivial, trivial⟩

theorem seed_data_raised_of_verify_error (dist : List ℚ → List ℚ → ℚ) (db : DB)
    (objs : List SeedObject) (oob pending : List ItemRow) (e : PyError)
    (h1 : db.tableExists = true) (h2 : insertLoop db.rows objs [] = .ok pending)
    (h3 : verifyQuery dist (commitRows db.rows oob pending) = .error e) :
    (seed_data dist db (.parsed objs) oob).raised = some e ∧
    (seed_data dist db (.parsed objs) oob).verifyRows = none := by
  rw [seed_data_parsed_ok dist db objs oob pending h1 h2]
  simp only [h3]
  exact ⟨trivial, trivial⟩

theorem seed_data_raised_ne_integrity (dist : List ℚ → List ℚ → ℚ) (db : DB)
    (file : SeedFile) (oob : List ItemRow) (e : PyError)
    (h : (seed_data dist db file oob).raised = some e) : e ≠ .integrityError := by
  cases hTE : db.tableExists with
  | false =>
    rw [seed_data_tableMissing dist db file oob hTE] at h
    exact absurd h (by simp)
  | true =>
    cases file with
    | readError =>
      rw [seed_data_readError dist db oob hTE] at h
      injection h with h2
      rw [← h2]
      simp
    | decodeError =>
      rw [seed_data_decodeError dist db oob hTE] at h
      injection h with h2
      rw [← h2]
      simp
    | parsed objs =>
      cases hIL : insertLoop db.rows objs [] with
      | error e2 =>
        rw [seed_data_parsed_error dist db objs oob e2 hTE hIL] at h
        injection h with h2
        rw [← h2]
        rcases insertLoop_error objs db.rows [] e2 hIL with h3 | h3 <;> simp [h3]
      | ok pending =>
        cases hV : verifyQuery dist (commitRows db.rows oob pending) with
        | error e3 =>
          have := (seed_data_raised_of_verify_error dist db objs oob pending e3
            hTE hIL hV).1
          rw [this] at h
          injection h with h2
          rw [← h2, verifyQuery_error hV]
          simp
        | ok vs =>
          have := (seed_data_raised_of_verify_ok dist db objs oob pending vs
            hTE hIL hV).1
          rw [this] at h
          exact absurd h (by simp)

theorem run_main_run (dist : List ℚ → List ℚ → ℚ) (args : Args) (db : DB)
    (file : SeedFile) (oob : List ItemRow) :
    (run_main dist args db file oob).run = seed_data dist db file oob := by
  simp only [run_main]
  split <;> rfl

theorem run_main_engineSource (dist : List ℚ → List ℚ → ℚ) (args : Args) (db : DB)
    (file : SeedFile) (oob : List ItemRow) :
    (run_main dist args db file oob).engineSource =
      match args.host with | none => .fromEnv | some _ => .fromArgs := by
  simp only [run_main]
  split <;> rfl

theorem run_main_of_raised {dist : List ℚ → List ℚ → ℚ} {args : Args} {db : DB}
    {file : SeedFile} {oob : List ItemRow} {e : PyError}
    (h : (seed_data dist db file oob).raised = some e) :
    (run_main dist args db file oob).exitCode = 1 ∧
    (run_main dist args db file oob).disposed = false := by
  simp only [run_main]
  split
  · rename_i heq
    rw [h] at heq
    exact absurd heq (by simp)
  · exact ⟨rfl, rfl⟩

theorem run_main_of_none {dist : List ℚ → List ℚ → ℚ} {args : Args} {db : DB}
    {file : SeedFile} {oob : List ItemRow}
    (h : (seed_data dist db file oob).raised = none) :
    (run_main dist args db file oob).exitCode = 0 ∧
    (run_main dist args db file oob).disposed = true := by
  simp only [run_main]
  split
  · exact ⟨rfl, rfl⟩
  · rename_i heq
    rw [h] at heq
    exact absurd heq (by simp)

/-! ### Claim theorems -/

/-- C3: if the target table is not in the schema catalog, the seeder
performs no inserts and no other database writes (the returned state is
exactly the initial one), emits exactly one log message, at error level,
and returns normally to its caller (`raised = none`), without raising. -/
theorem missing_table_soft_fail (dist : List ℚ → List ℚ → ℚ) (db : DB)
    (file : SeedFile) (oob : List ItemRow) (h : db.tableExists = false) :
    seed_data dist db file oob = ⟨db, [.tableMissing], none, none⟩ ∧
    levelOf .tableMissing = .error :=
  ⟨seed_data_tableMissing dist db file oob h, rfl⟩

theorem missing_table_soft_fail_w :
    seed_data dist0 ⟨false, [rowZ]⟩ (.parsed [objA]) [] =
      ⟨⟨false, [rowZ]⟩, [.tableMissing], none, none⟩ ∧
    levelOf .tableMissing = .error :=
  missing_table_soft_fail dist0 ⟨false, [rowZ]⟩ (.parsed [objA]) [] rfl

/-- C6: the seeder never updates or deletes a row: whatever the input
file, catalog state and out-of-band activity, the final table contents
extend the initial contents, so every row present before the run is
present unchanged (same identifier, attributes and embeddings) after it;
the only writes are appended inserts. -/
theorem seeder_only_appends (dist : List ℚ → List ℚ → ℚ) (db : DB)
    (file : SeedFile) (oob : List ItemRow) :
    ∃ appended, (seed_data dist db file oob).db.rows = db.rows ++ appended := by
  cases hTE : db.tableExists with
  | false =>
    rw [seed_data_tableMissing dist db file oob hTE]
    exact ⟨[], by simp⟩
  | true =>
    cases file with
    | readError =>
      rw [seed_data_readError dist db oob hTE]
      exact ⟨[], by simp⟩
    | decodeError =>
      rw [seed_data_decodeError dist db oob hTE]
      exact ⟨[], by simp⟩
    | parsed objs =>
      cases hIL : insertLoop db.rows objs [] with
      | error e =>
        rw [seed_data_parsed_error dist db objs oob e hTE hIL]
        exact ⟨[], by simp⟩
      | ok pending =>
        rcases commitRows_cases db.rows oob pending with h | ⟨h, _⟩
        · refine ⟨oob, ?_⟩
          rw [seed_data_db_of_ok dist db objs oob pending hTE hIL]
          exact h
        · refine ⟨oob ++ pending, ?_⟩
          rw [seed_data_db_of_ok dist db objs oob pending hTE hIL]
          show commitRows db.rows oob pending = db.rows ++ (oob ++ pending)
          rw [h, List.append_assoc]

/-- C9: when the table exists but is empty after the load phase (empty
seed array, empty table, no out-of-band inserts), the verification step
finds no lowest-identifier row, and accessing its first embedding field
raises an uncaught `AttributeError`: the run does not complete normally
and the process exits with a nonzero status. -/
theorem empty_table_verify_crash (dist : List ℚ → List ℚ → ℚ) (args : Args)
    (objs : List SeedObject) (h : insertLoop [] objs [] = .ok []) :
    (run_main dist args ⟨true, []⟩ (.parsed objs) []).run.raised =
      some .attributeError ∧
    (run_main dist args ⟨true, []⟩ (.parsed objs) []).run.verifyRows = none ∧
    (run_main dist args ⟨true, []⟩ (.parsed objs) []).exitCode = 1 := by
  have hV : verifyQuery dist (commitRows (DB.rows ⟨true, []⟩) [] []) =
      .error .attributeError := rfl
  have hr := seed_data_raised_of_verify_error dist ⟨true, []⟩ objs [] []
    .attributeError rfl h hV
  rw [run_main_run]
  exact ⟨hr.1, hr.2, (run_main_of_raised hr.1).1⟩

theorem empty_table_verify_crash_w :
    (run_main dist0 ⟨none, none, none, none, none⟩ ⟨true, []⟩ (.parsed []) []).run.raised =
      some .attributeError ∧
    (run_main dist0 ⟨none, none, none, none, none⟩ ⟨true, []⟩ (.parsed []) []).run.verifyRows =
      none ∧
    (run_main dist0 ⟨none, none, none, none, none⟩ ⟨true, []⟩ (.parsed []) []).exitCode = 1 :=
  empty_table_verify_crash dist0 ⟨none, none, none, none, none⟩ [] rfl

/-- C10: in a single run, at most one row per identifier is inserted even
when the seed array repeats an identifier: the existence check runs in the
same session and transaction as the preceding inserts, so a later
duplicate observes the earlier pending insert and is skipped.  The rows a
successful insert phase produces carry pairwise-distinct identifiers, none
of which was already in the table. -/
theorem single_run_no_duplicate_insert (committed : List ItemRow)
    (objs : List SeedObject) (pending : List ItemRow)
    (h : insertLoop committed objs [] = .ok pending) :
    (pending.map ItemRow.id).Nodup ∧
    ∀ r ∈ pending, r.id ∉ committed.map ItemRow.id := by
  obtain ⟨new, hdec, hfr, hnd⟩ := insertLoop_ok_decomp objs committed [] pending h
  rw [List.nil_append] at hdec
  subst hdec
  refine ⟨hnd, fun r hr hmem => hfr r hr ?_⟩
  simpa using hmem

theorem single_run_no_duplicate_insert_w :
    (([rowA].map ItemRow.id).Nodup) ∧
    ∀ r ∈ [rowA], r.id ∉ ([] : List ItemRow).map ItemRow.id :=
  single_run_no_duplicate_insert [] [objA, objA2] [rowA] rfl

/-- The row `objB` inserts. -/
def rowB : ItemRow := ⟨2, [], [2], [2]⟩

/-- C4: a duplicate-key violation at commit time is absorbed: the run
never surfaces an `IntegrityError` to the caller and performs no retry
(the model has a single commit); and provided the identifiers already in
the table — including any row inserted out-of-band between the existence
check and the commit — are pairwise distinct, they stay pairwise distinct
after the run: a record whose identifier was inserted out-of-band is never
duplicated. -/
theorem commit_conflict_absorbed (dist : List ℚ → List ℚ → ℚ) (db : DB)
    (objs : List SeedObject) (oob : List ItemRow)
    (hTE : db.tableExists = true)
    (hnd : ((db.rows ++ oob).map ItemRow.id).Nodup) :
    (seed_data dist db (.parsed objs) oob).raised ≠ some .integrityError ∧
    (((seed_data dist db (.parsed objs) oob).db.rows).map ItemRow.id).Nodup := by
  constructor
  · intro hc
    exact seed_data_raised_ne_integrity dist db (.parsed objs) oob .integrityError hc rfl
  · cases hIL : insertLoop db.rows objs [] with
    | error e =>
      rw [seed_data_parsed_error dist db objs oob e hTE hIL]
      show (db.rows.map ItemRow.id).Nodup
      rw [List.map_append] at hnd
      exact hnd.of_append_left
    | ok pending =>
      rw [seed_data_db_of_ok dist db objs oob pending hTE hIL]
      show ((commitRows db.rows oob pending).map ItemRow.id).Nodup
      rcases commitRows_cases db.rows oob pending with h | ⟨h, hfr⟩
      · rw [h]
        exact hnd
      · rw [h, List.map_append]
        obtain ⟨new, hdec, hfr2, hnd2⟩ := insertLoop_ok_decomp objs db.rows [] pending hIL
        rw [List.nil_append] at hdec
        subst hdec
        rw [List.nodup_append]
        refine ⟨hnd, hnd2, ?_⟩
        intro x hx hx2
        rcases List.mem_map.mp hx2 with ⟨r, hr, hid⟩
        exact hfr r hr (hid ▸ hx)

theorem commit_conflict_absorbed_w :
    (seed_data dist0 ⟨true, []⟩ (.parsed [objA]) [⟨1, [], [9], [9]⟩]).raised ≠
      some .integrityError ∧
    (((seed_data dist0 ⟨true, []⟩ (.parsed [objA]) [⟨1, [], [9], [9]⟩]).db.rows).map
      ItemRow.id).Nodup :=
  commit_conflict_absorbed dist0 ⟨true, []⟩ [objA] [⟨1, [], [9], [9]⟩] rfl (by decide)

/-- C7: with the table present, every failure mode other than the two
absorbed conditions propagates to the caller: an unreadable seed file
surfaces `OSError`, an unparsable one surfaces `JSONDecodeError`, a
failing insert phase (malformed rows: missing or non-numeric identifier,
missing or non-array embedding) surfaces its own error; every surfaced
error skips the rest of the script and terminates the process with a
nonzero exit status, and a surfaced error is never the absorbed
`IntegrityError`. -/
theorem unhandled_errors_propagate (dist : List ℚ → List ℚ → ℚ) (args : Args)
    (db : DB) (oob : List ItemRow) (hTE : db.tableExists = true) :
    ((run_main dist args db .readError oob).run.raised = some .osError ∧
      (run_main dist args db .readError oob).exitCode = 1) ∧
    ((run_main dist args db .decodeError oob).run.raised = some .jsonDecodeError ∧
      (run_main dist args db .decodeError oob).exitCode = 1) ∧
    (∀ objs e, insertLoop db.rows objs [] = .error e →
      (run_main dist args db (.parsed objs) oob).run.raised = some e ∧
      (run_main dist args db (.parsed objs) oob).exitCode = 1) ∧
    (∀ file e, (run_main dist args db file oob).run.raised = some e →
      (run_main dist args db file oob).exitCode = 1 ∧ e ≠ .integrityError) := by
  refine ⟨?_, ?_, ?_, ?_⟩
  · have h1 : (seed_data dist db .readError oob).raised = some .osError := by
      rw [seed_data_readError dist db oob hTE]
    rw [run_main_run]
    exact ⟨h1, (run_main_of_raised h1).1⟩
  · have h1 : (seed_data dist db .decodeError oob).raised = some .jsonDecodeError := by
      rw [seed_data_decodeError dist db oob hTE]
    rw [run_main_run]
    exact ⟨h1, (run_main_of_raised h1).1⟩
  · intro objs e hIL
    have h1 : (seed_data dist db (.parsed objs) oob).raised = some e := by
      rw [seed_data_parsed_error dist db objs oob e hTE hIL]
    rw [run_main_run]
    exact ⟨h1, (run_main_of_raised h1).1⟩
  · intro file e h
    rw [run_main_run] at h
    exact ⟨(run_main_of_raised h).1,
      seed_data_raised_ne_integrity dist db file oob e h⟩

theorem unhandled_errors_propagate_w :
    (run_main dist0 ⟨none, none, none, none, none⟩ ⟨true, []⟩ .readError []).run.raised =
      some .osError ∧
    (run_main dist0 ⟨none, none, none, none, none⟩ ⟨true, []⟩ .readError []).exitCode = 1 :=
  (unhandled_errors_propagate dist0 ⟨none, none, none, none, none⟩ ⟨true, []⟩ [] rfl).1

/-- C1 counterexample: the claim's count consequence fails as stated.
(a) Seed array `[objA, objA2]`: two records, neither identifier
pre-existing in the empty table, yet only one row exists after the run —
the records share identifier 1 and the second is skipped.  (b) A table
already holding the single row `rowZ` (identifier 9) and the one-record
seed array `[objA]` with a fresh identifier: two rows exist after the run,
not one. -/
theorem seed_count_cex :
    ¬ ((seed_data dist0 ⟨true, []⟩ (.parsed [objA, objA2]) []).db.rows.length = 2) ∧
    ¬ ((seed_data dist0 ⟨true, [rowZ]⟩ (.parsed [objA]) []).db.rows.length = 1) := by
  decide

/-- C1 (amended): for every object the seeder queries for an existing row
with the same identifier and skips the object if one is found; otherwise
it executes an insert built from exactly that object's field names and
values, with the two embedding arrays converted to the store's vector
representation (`toRow`).  Consequently, for a seed file of N well-formed
records with pairwise-distinct identifiers none of which pre-exists in the
table, the run appends exactly the N converted rows — so the table grows
by exactly N rows, and holds exactly N rows when it started empty. -/
theorem seed_count_amended (dist : List ℚ → List ℚ → ℚ) (db : DB)
    (objs : List SeedObject)
    (hTE : db.tableExists = true)
    (hwf : ∀ o ∈ objs, ∃ r, toRow o = .ok r)
    (hnd : (objIds objs).Nodup)
    (hfresh : ∀ i ∈ objIds objs, i ∉ db.rows.map ItemRow.id) :
    (seed_data dist db (.parsed objs) []).db.rows = db.rows ++ rowsOf objs ∧
    (rowsOf objs).length = objs.length := by
  have hloop : insertLoop db.rows objs [] = .ok (rowsOf objs) := by
    have := insertLoop_all_fresh objs db.rows [] hwf hnd (by simpa using hfresh)
    simpa using this
  refine ⟨?_, rowsOf_length_of_wf objs hwf⟩
  rw [seed_data_db_of_ok dist db objs [] (rowsOf objs) hTE hloop]
  show commitRows db.rows [] (rowsOf objs) = db.rows ++ rowsOf objs
  obtain ⟨new, hdec, hfr, _⟩ := insertLoop_ok_decomp objs db.rows [] (rowsOf objs) hloop
  rw [List.nil_append] at hdec
  subst hdec
  rw [commitRows_of_fresh hfr]
  simp

theorem seed_count_amended_w :
    (seed_data dist0 ⟨true, []⟩ (.parsed [objA, objB]) []).db.rows =
      (⟨true, []⟩ : DB).rows ++ rowsOf [objA, objB] ∧
    (rowsOf [objA, objB]).length = ([objA, objB] : List SeedObject).length :=
  seed_count_amended dist0 ⟨true, []⟩ [objA, objB] rfl
    (by
      intro o ho
      rcases List.mem_cons.mp ho with h | h
      · subst h; exact ⟨rowA, rfl⟩
      · rcases List.mem_cons.mp h with h2 | h2
        · subst h2; exact ⟨rowB, rfl⟩
        · simp at h2)
    (by decide) (by decide)

/-- C2 counterexample: the claim fails as stated.  (a) With seed file
`[objA, objA2]` (two records sharing identifier 1) the first run against
the empty table inserts only one row, so not every seed record is inserted
exactly once.  (b) With an empty seed array, each run — including the
second — raises `AttributeError` in the verification step, so the second
run does not complete without error. -/
theorem seeder_idempotent_cex :
    (seed_data dist0 ⟨true, []⟩ (.parsed [objA, objA2]) []).db.rows.length = 1 ∧
    (seed_data dist0 (seed_data dist0 ⟨true, []⟩ (.parsed []) []).db
      (.parsed []) []).raised = some .attributeError := by
  decide

/-- C2 (amended): for a non-empty seed file of well-formed records with
pairwise-distinct identifiers, running the seeder twice in sequence
against the same initially-empty table inserts every record exactly once:
the first run inserts exactly the converted records, and the second run
inserts zero new rows and raises no error, leaving the table contents
unchanged. -/
theorem seeder_idempotent_amended (dist : List ℚ → List ℚ → ℚ)
    (objs : List SeedObject)
    (hwf : ∀ o ∈ objs, ∃ r, toRow o = .ok r)
    (hnd : (objIds objs).Nodup)
    (hne : objs ≠ []) :
    (seed_data dist ⟨true, []⟩ (.parsed objs) []).db.rows = rowsOf objs ∧
    (rowsOf objs).length = objs.length ∧
    (seed_data dist (seed_data dist ⟨true, []⟩ (.parsed objs) []).db
      (.parsed objs) []).db.rows =
      (seed_data dist ⟨true, []⟩ (.parsed objs) []).db.rows ∧
    (seed_data dist (seed_data dist ⟨true, []⟩ (.parsed objs) []).db
      (.parsed objs) []).raised = none := by
  have hloop : insertLoop (DB.rows ⟨true, []⟩) objs [] = .ok (rowsOf objs) := by
    have := insertLoop_all_fresh objs [] [] hwf hnd (by simp)
    simpa using this
  have hdb1 : (seed_data dist ⟨true, []⟩ (.parsed objs) []).db = ⟨true, rowsOf objs⟩ := by
    rw [seed_data_db_of_ok dist ⟨true, []⟩ objs [] (rowsOf objs) rfl hloop]
    have hcr : commitRows [] [] (rowsOf objs) = rowsOf objs := by
      rw [commitRows_of_fresh (by simp)]
      simp
    rw [show DB.rows ⟨true, []⟩ = [] from rfl, hcr]
  have hskip : insertLoop (rowsOf objs) objs [] = .ok [] := by
    apply insertLoop_skip_all
    intro o ho
    obtain ⟨r, hr⟩ := hwf o ho
    obtain ⟨i, hio, _, _⟩ := toRow_ok hr
    exact ⟨i, hio, by simpa using mem_rowsOf_id objs hwf i (mem_objIds ho hio)⟩
  have hcr2 : commitRows (rowsOf objs) [] [] = rowsOf objs := by
    rw [commitRows_of_fresh (by simp)]
    simp
  have hrows_ne : rowsOf objs ≠ [] := by
    intro hc
    have hlen := rowsOf_length_of_wf objs hwf
    rw [hc] at hlen
    exact hne (List.length_eq_zero.mp hlen.symm)
  obtain ⟨vs, hvs⟩ := verifyQuery_ok_of_ne_nil dist hrows_ne
  have h2run := seed_data_raised_of_verify_ok dist ⟨true, rowsOf objs⟩ objs [] [] vs
    rfl hskip (by rw [show DB.rows ⟨true, rowsOf objs⟩ = rowsOf objs from rfl, hcr2]; exact hvs)
  refine ⟨by rw [hdb1], rowsOf_length_of_wf objs hwf, ?_, ?_⟩
  · rw [hdb1]
    rw [seed_data_db_of_ok dist ⟨true, rowsOf objs⟩ objs [] [] rfl hskip]
    show commitRows (rowsOf objs) [] [] = rowsOf objs
    exact hcr2
  · rw [hdb1]
    exact h2run.1

theorem seeder_idempotent_amended_w :
    (seed_data dist0 ⟨true, []⟩ (.parsed [objA, objB]) []).db.rows =
      rowsOf [objA, objB] ∧
    (rowsOf [objA, objB]).length = ([objA, objB] : List SeedObject).length ∧
    (seed_data dist0 (seed_data dist0 ⟨true, []⟩ (.parsed [objA, objB]) []).db
      (.parsed [objA, objB]) []).db.rows =
      (seed_data dist0 ⟨true, []⟩ (.parsed [objA, objB]) []).db.rows ∧
    (seed_data dist0 (seed_data dist0 ⟨true, []⟩ (.parsed [objA, objB]) []).db
      (.parsed [objA, objB]) []).raised = none :=
  seeder_idempotent_amended dist0 [objA, objB]
    (by
      intro o ho
      rcases List.mem_cons.mp ho with h | h
      · subst h; exact ⟨rowA, rfl⟩
      · rcases List.mem_cons.mp h with h2 | h2
        · subst h2; exact ⟨rowB, rfl⟩
        · simp at h2)
    (by decide) (by simp)

/-- C8 counterexample: with `--host` supplied and an unparsable seed file,
`seed_data` raises, so the `engine.dispose()` line is never reached: the
engine is not disposed before the process exits, refuting the claim that
it is disposed in both construction cases. -/
theorem cli_engine_cex :
    (run_main dist0 ⟨some 1, none, none, none, none⟩ ⟨true, []⟩
      .decodeError []).engineSource = .fromArgs ∧
    (run_main dist0 ⟨some 1, none, none, none, none⟩ ⟨true, []⟩
      .decodeError []).disposed = false := by
  decide

/-- C8 (amended): when `--host` is omitted the engine is built by the
environment-based factory; when it is supplied the engine is built from
the parsed CLI arguments; and the engine is disposed before the process
exits whenever `seed_data` returns normally — an uncaught exception skips
the `dispose` call. -/
theorem cli_engine_amended (dist : List ℚ → List ℚ → ℚ) (args : Args) (db : DB)
    (file : SeedFile) (oob : List ItemRow) :
    (args.host = none →
      (run_main dist args db file oob).engineSource = .fromEnv) ∧
    (∀ h, args.host = some h →
      (run_main dist args db file oob).engineSource = .fromArgs) ∧
    ((run_main dist args db file oob).run.raised = none →
      (run_main dist args db file oob).disposed = true ∧
      (run_main dist args db file oob).exitCode = 0) := by
  refine ⟨?_, ?_, ?_⟩
  · intro h
    rw [run_main_engineSource, h]
  · intro h hh
    rw [run_main_engineSource, hh]
  · intro h
    rw [run_main_run] at h
    exact ⟨(run_main_of_none h).2, (run_main_of_none h).1⟩

theorem cli_engine_amended_w :
    (run_main dist0 ⟨none, none, none, none, none⟩ ⟨true, []⟩
      (.parsed [objA]) []).engineSource = .fromEnv ∧
    (run_main dist0 ⟨none, none, none, none, none⟩ ⟨true, []⟩
      (.parsed [objA]) []).disposed = true ∧
    (run_main dist0 ⟨none, none, none, none, none⟩ ⟨true, []⟩
      (.parsed [objA]) []).exitCode = 0 :=
  ⟨(cli_engine_amended dist0 ⟨none, none, none, none, none⟩ ⟨true, []⟩
      (.parsed [objA]) []).1 rfl,
    (cli_engine_amended dist0 ⟨none, none, none, none, none⟩ ⟨true, []⟩
      (.parsed [objA]) []).2.2 (by decide)⟩

/-- C5: the verification step reads the row with the lowest identifier
and, when the table is non-empty and the store's distance operator
satisfies the cosine-distance facts the spec relies on (zero between
identical vectors, never negative), runs one query scoring every row's
`embedding_ada002` against that row's, orders the results by ascending
distance, and returns at most 2 rows; the first returned row's distance —
the lowest-identifier row compared to itself — is exactly 0, the minimal
value the operator can take. -/
theorem verification_query_props (dist : List ℚ → List ℚ → ℚ)
    (rows : List ItemRow)
    (hne : rows ≠ [])
    (hself : ∀ v, dist v v = 0)
    (hnn : ∀ u v, 0 ≤ dist u v) :
    ∃ fi full,
      firstItem rows = some fi ∧ fi ∈ rows ∧ (∀ r ∈ rows, fi.id ≤ r.id) ∧
      List.Perm full
        (rows.map (fun r => (r.id, dist r.embedding_ada002 fi.embedding_ada002))) ∧
      List.Sorted sndLE full ∧
      verifyQuery dist rows = .ok (full.take 2) ∧
      (full.take 2).length ≤ 2 ∧
      List.Sorted sndLE (full.take 2) ∧
      ∃ p rest, full.take 2 = p :: rest ∧ p.2 = 0 := by
  obtain ⟨fi, t, hsid⟩ := List.exists_cons_of_ne_nil (insertionSort_ne_nil idLE hne)
  have hfi : firstItem rows = some fi := by
    unfold firstItem
    rw [hsid]
    rfl
  have hfimem : fi ∈ rows := by
    have hmem : fi ∈ rows.insertionSort idLE := by
      rw [hsid]
      exact List.mem_cons_self _ _
    exact (List.perm_insertionSort idLE rows).subset hmem
  have hmin : ∀ r ∈ rows, fi.id ≤ r.id := fun r hr =>
    insertionSort_head_rel idLE rows fi t hsid r hr
  refine ⟨fi, ((rows.map
    (fun r => (r.id, dist r.embedding_ada002 fi.embedding_ada002))).insertionSort sndLE),
    hfi, hfimem, hmin, List.perm_insertionSort sndLE _, List.sorted_insertionSort sndLE _,
    ?_, ?_, ?_⟩
  · unfold verifyQuery
    rw [hfi]
  · rw [List.length_take]
    exact min_le_left _ _
  · have hfullne : (rows.map
        (fun r => (r.id, dist r.embedding_ada002 fi.embedding_ada002))).insertionSort
          sndLE ≠ [] :=
      insertionSort_ne_nil sndLE (by simpa using hne)
    obtain ⟨p, t2, hp⟩ := List.exists_cons_of_ne_nil hfullne
    have hple := insertionSort_head_rel sndLE
      (rows.map (fun r => (r.id, dist r.embedding_ada002 fi.embedding_ada002))) p t2 hp
    have hp2le : p.2 ≤ 0 := by
      have hmem : (fi.id, dist fi.embedding_ada002 fi.embedding_ada002) ∈
          rows.map (fun r => (r.id, dist r.embedding_ada002 fi.embedding_ada002)) :=
        List.mem_map_of_mem _ hfimem
      have hrel := hple _ hmem
      unfold sndLE at hrel
      simpa [hself] using hrel
    have hp2ge : 0 ≤ p.2 := by
      have hpmem : p ∈ rows.map
          (fun r => (r.id, dist r.embedding_ada002 fi.embedding_ada002)) :=
        (List.perm_insertionSort sndLE _).subset (by rw [hp]; exact List.mem_cons_self _ _)
      rcases List.mem_map.mp hpmem with ⟨r, _, hr⟩
      rw [← hr]
      exact hnn _ _
    refine ⟨?_, p, t2.take 1, by rw [hp]; rfl, le_antisymm hp2le hp2ge⟩
    exact List.Pairwise.sublist (List.take_sublist _ _) (List.sorted_insertionSort sndLE _)

theorem verification_query_props_w :
    ∃ fi full,
      firstItem [rowA, rowB] = some fi ∧ fi ∈ [rowA, rowB] ∧
      (∀ r ∈ [rowA, rowB], fi.id ≤ r.id) ∧
      List.Perm full
        ([rowA, rowB].map
          (fun r => (r.id, dist0 r.embedding_ada002 fi.embedding_ada002))) ∧
      List.Sorted sndLE full ∧
      verifyQuery dist0 [rowA, rowB] = .ok (full.take 2) ∧
      (full.take 2).length ≤ 2 ∧
      List.Sorted sndLE (full.take 2) ∧
      ∃ p rest, full.take 2 = p :: rest ∧ p.2 = 0 :=
  verification_query_props dist0 [rowA, rowB] (by simp)
    (fun v => if_pos rfl)
    (fun u v => by simp only [dist0]; split <;> norm_num)
